import Mathlib

/-!
Verification development for the `Jakub-Kos/WebPage` repository.

The file shallowly embeds the numeric and list-processing code of the
repository's interactive widgets and proves the frozen claims about them:

* `ArmApp`  — the 2D forward-kinematics visualizer of `src/src/App.tsx`
  (geometry helpers `Rot2D`, `Tran2D`, `matMul`, `matVec`, `matIdentity`,
  the `Tfk` / `endFK` / `joints` computations, the user-matrix evaluation
  effect and the match error `err`).  JavaScript numbers are modelled as
  real numbers; the degree-to-radian conversion and trigonometric
  functions are the exact real-valued counterparts.
* `RTT`     — the RTT-manipulator trajectory of `src/src/pages/School.tsx`
  (both copies of the component share these definitions verbatim).
* `Wordle`  — the Wordle pattern tool of `src/src/apps/WordlePattern.tsx`
  (`normalizeWord`, `isFiveLetter`, `scoreWordle`, the word-list loading
  outcome with its `FALLBACK` list, the grid editor and `compute`).
-/

namespace ArmApp

noncomputable section

/-- Embedding of `toRad` from `src/src/App.tsx` line 51:
`(deg * Math.PI) / 180`. -/
def toRad (deg : ℝ) : ℝ := deg * Real.pi / 180

/-- Embedding of `Rot2D` (App.tsx lines 52-55): the 3×3 homogeneous
rotation matrix `[[c,-s,0],[s,c,0],[0,0,1]]`. -/
def Rot2D (thetaRad : ℝ) : Matrix (Fin 3) (Fin 3) ℝ :=
  !![Real.cos thetaRad, -Real.sin thetaRad, 0;
     Real.sin thetaRad,  Real.cos thetaRad, 0;
     0, 0, 1]

/-- Embedding of `Tran2D` (App.tsx lines 56-58): `[[1,0,dx],[0,1,dy],[0,0,1]]`. -/
def Tran2D (dx dy : ℝ) : Matrix (Fin 3) (Fin 3) ℝ :=
  !![1, 0, dx; 0, 1, dy; 0, 0, 1]

/-- Embedding of `matMul` (App.tsx lines 59-67): the triple loop
`sum += A[i][k] * B[k][j]` on 3×3 matrices. -/
def matMul (A B : Matrix (Fin 3) (Fin 3) ℝ) : Matrix (Fin 3) (Fin 3) ℝ :=
  Matrix.of fun i j => ∑ k : Fin 3, A i k * B k j

/-- Embedding of `matVec` (App.tsx lines 68-70):
`A.map(row => row.reduce((acc, aij, j) => acc + aij * v[j], 0))`. -/
def matVec (A : Matrix (Fin 3) (Fin 3) ℝ) (v : Fin 3 → ℝ) : Fin 3 → ℝ :=
  fun i => ∑ j : Fin 3, A i j * v j

/-- Embedding of `matIdentity` (App.tsx line 71). -/
def matIdentity : Matrix (Fin 3) (Fin 3) ℝ := !![1, 0, 0; 0, 1, 0; 0, 0, 1]

/-- Embedding of `anglesDeg` (App.tsx line 165):
`[t1deg, t2deg, t3deg].slice(0, numArms)`. -/
def anglesDeg (numArms : ℕ) (t1deg t2deg t3deg : ℝ) : List ℝ :=
  [t1deg, t2deg, t3deg].take numArms

/-- Embedding of `lengths` (App.tsx line 166): `[l1, l2, l3].slice(0, numArms)`. -/
def lengths (numArms : ℕ) (l1 l2 l3 : ℝ) : List ℝ :=
  [l1, l2, l3].take numArms

/-- Embedding of `Tfk` (App.tsx lines 168-177): starting from the identity,
for `i = 0 .. numArms-1` multiply on the right by
`Rot2D(toRad(anglesDeg[i])) · Tran2D(lengths[i], 0)`. -/
def Tfk (numArms : ℕ) (t1 t2 t3 l1 l2 l3 : ℝ) : Matrix (Fin 3) (Fin 3) ℝ :=
  (List.range numArms).foldl
    (fun T i =>
      matMul T (matMul (Rot2D (toRad ((anglesDeg numArms t1 t2 t3).getD i 0)))
                       (Tran2D ((lengths numArms l1 l2 l3).getD i 0) 0)))
    matIdentity

/-- Embedding of `endFK` (App.tsx lines 179-182): the first two components
of `Tfk · [0,0,1]ᵀ`. -/
def endFK (numArms : ℕ) (t1 t2 t3 l1 l2 l3 : ℝ) : ℝ × ℝ :=
  let p := matVec (Tfk numArms t1 t2 t3 l1 l2 l3) ![0, 0, 1]
  (p 0, p 1)

/-- Embedding of `joints` (App.tsx lines 185-195): the polyline starting at
`(0,0)`, accumulating the running angle sum and adding
`(lᵢ·cos(sum), lᵢ·sin(sum))` per link.  The loop state is
`(pts, angleSum, x, y)`. -/
def joints (numArms : ℕ) (t1 t2 t3 l1 l2 l3 : ℝ) : List (ℝ × ℝ) :=
  ((List.range numArms).foldl
    (fun st i =>
      let S := st.2.1 + toRad ((anglesDeg numArms t1 t2 t3).getD i 0)
      let x := st.2.2.1 + ((lengths numArms l1 l2 l3).getD i 0) * Real.cos S
      let y := st.2.2.2 + ((lengths numArms l1 l2 l3).getD i 0) * Real.sin S
      (st.1 ++ [(x, y)], S, x, y))
    ([(0, 0)], 0, 0, 0)).1

/-- Embedding of `endUserRaw` (App.tsx lines 197-201): when the user matrix
evaluated, apply it to `[0,0,1]ᵀ` and keep all three components `(x,y,w)`. -/
def endUserRaw (Tuser : Option (Matrix (Fin 3) (Fin 3) ℝ)) : Option (ℝ × ℝ × ℝ) :=
  Tuser.map fun T => (matVec T ![0, 0, 1] 0, matVec T ![0, 0, 1] 1, matVec T ![0, 0, 1] 2)

/-- Embedding of `endUser` (App.tsx lines 203-209): divide by `w` only when
`normalizeW` is on and `w ≠ 0`. -/
def endUser (Tuser : Option (Matrix (Fin 3) (Fin 3) ℝ)) (normalizeW : Bool) :
    Option (ℝ × ℝ) :=
  match endUserRaw Tuser with
  | none => none
  | some (x, y, w) =>
      if normalizeW = true ∧ w ≠ 0 then some (x / w, y / w) else some (x, y)

/-- Model of JavaScript `Math.hypot` on two arguments. -/
def hypot (a b : ℝ) : ℝ := Real.sqrt (a ^ 2 + b ^ 2)

/-- Embedding of `err` (App.tsx line 211):
`endUser ? Math.hypot(endUser.x - endFK.x, endUser.y - endFK.y) : null`. -/
def err (Tuser : Option (Matrix (Fin 3) (Fin 3) ℝ)) (normalizeW : Bool)
    (numArms : ℕ) (t1 t2 t3 l1 l2 l3 : ℝ) : Option ℝ :=
  (endUser Tuser normalizeW).map fun p =>
    hypot (p.1 - (endFK numArms t1 t2 t3 l1 l2 l3).1)
          (p.2 - (endFK numArms t1 t2 t3 l1 l2 l3).2)

/-- A homogeneous rotation-then-translation matrix with angle `S` and
translation `(x, y)`; the shape preserved by the `Tfk` fold. -/
def rtMat (S x y : ℝ) : Matrix (Fin 3) (Fin 3) ℝ :=
  !![Real.cos S, -Real.sin S, x; Real.sin S, Real.cos S, y; 0, 0, 1]

lemma matMul_eq_mul (A B : Matrix (Fin 3) (Fin 3) ℝ) : matMul A B = A * B := by
  ext i j
  simp [matMul, Matrix.mul_apply]

lemma matVec_eq_mulVec (A : Matrix (Fin 3) (Fin 3) ℝ) (v : Fin 3 → ℝ) :
    matVec A v = A.mulVec v := by
  funext i
  simp [matVec, Matrix.mulVec, Matrix.dotProduct, Fin.sum_univ_three]

lemma matIdentity_eq_one : matIdentity = 1 := by
  ext i j
  fin_cases i <;> fin_cases j <;>
    simp [matIdentity, Matrix.one_apply, Matrix.vecHead, Matrix.vecTail]

lemma matIdentity_eq_rtMat : matIdentity = rtMat 0 0 0 := by
  ext i j
  fin_cases i <;> fin_cases j <;> simp [matIdentity, rtMat]

lemma rtMat_step (S x y θ l : ℝ) :
    matMul (rtMat S x y) (matMul (Rot2D θ) (Tran2D l 0)) =
      rtMat (S + θ) (x + l * Real.cos (S + θ)) (y + l * Real.sin (S + θ)) := by
  ext i j
  fin_cases i <;> fin_cases j <;>
    simp [matMul, rtMat, Rot2D, Tran2D, Fin.sum_univ_three,
      Real.cos_add, Real.sin_add] <;>
    ring

lemma matVec_rtMat (S x y : ℝ) :
    matVec (rtMat S x y) ![0, 0, 1] = ![x, y, 1] := by
  funext i
  fin_cases i <;> simp [matVec, rtMat, Fin.sum_univ_three]

/-- The `joints` fold state `(pts, angleSum, x, y)`, abstracted over the
per-link angle and length accessors. -/
def jstate (θf lf : ℕ → ℝ) (n : ℕ) : List (ℝ × ℝ) × ℝ × ℝ × ℝ :=
  (List.range n).foldl
    (fun st i =>
      let S := st.2.1 + θf i
      let x := st.2.2.1 + lf i * Real.cos S
      let y := st.2.2.2 + lf i * Real.sin S
      (st.1 ++ [(x, y)], S, x, y))
    ([(0, 0)], 0, 0, 0)

/-- Invariant tying the `Tfk` fold to the `joints` fold: after `n` links the
matrix is a rotation-then-translation matrix whose translation is the last
point of the joint polyline. -/
lemma fk_inv (θf lf : ℕ → ℝ) :
    ∀ n : ℕ,
      ((List.range n).foldl
          (fun T i => matMul T (matMul (Rot2D (θf i)) (Tran2D (lf i) 0)))
          matIdentity
        = rtMat (jstate θf lf n).2.1 (jstate θf lf n).2.2.1 (jstate θf lf n).2.2.2)
      ∧ (jstate θf lf n).1.getLastD (0, 0)
          = ((jstate θf lf n).2.2.1, (jstate θf lf n).2.2.2) := by
  intro n
  induction n with
  | zero =>
    constructor
    · simpa [jstate] using matIdentity_eq_rtMat
    · simp [jstate]
  | succ m ih =>
    rcases ih with ⟨h1, h2⟩
    have hst : jstate θf lf (m + 1)
        = ((jstate θf lf m).1 ++
            [((jstate θf lf m).2.2.1 + lf m * Real.cos ((jstate θf lf m).2.1 + θf m),
              (jstate θf lf m).2.2.2 + lf m * Real.sin ((jstate θf lf m).2.1 + θf m))],
           (jstate θf lf m).2.1 + θf m,
           (jstate θf lf m).2.2.1 + lf m * Real.cos ((jstate θf lf m).2.1 + θf m),
           (jstate θf lf m).2.2.2 + lf m * Real.sin ((jstate θf lf m).2.1 + θf m)) := by
      simp [jstate, List.range_succ]
    constructor
    · rw [List.range_succ, List.foldl_append, List.foldl_cons, List.foldl_nil, h1,
        rtMat_step, hst]
    · rw [hst]
      simp

lemma joints_getLastD_eq_endFK (n : ℕ) (t1 t2 t3 l1 l2 l3 : ℝ) :
    (joints n t1 t2 t3 l1 l2 l3).getLastD (0, 0) = endFK n t1 t2 t3 l1 l2 l3 := by
  have h := fk_inv (fun i => toRad ((anglesDeg n t1 t2 t3).getD i 0))
      (fun i => (lengths n l1 l2 l3).getD i 0) n
  have hT : Tfk n t1 t2 t3 l1 l2 l3
      = rtMat (jstate (fun i => toRad ((anglesDeg n t1 t2 t3).getD i 0))
                (fun i => (lengths n l1 l2 l3).getD i 0) n).2.1
              (jstate (fun i => toRad ((anglesDeg n t1 t2 t3).getD i 0))
                (fun i => (lengths n l1 l2 l3).getD i 0) n).2.2.1
              (jstate (fun i => toRad ((anglesDeg n t1 t2 t3).getD i 0))
                (fun i => (lengths n l1 l2 l3).getD i 0) n).2.2.2 := h.1
  have he : endFK n t1 t2 t3 l1 l2 l3
      = (matVec (Tfk n t1 t2 t3 l1 l2 l3) ![0, 0, 1] 0,
         matVec (Tfk n t1 t2 t3 l1 l2 l3) ![0, 0, 1] 1) := rfl
  have hj : joints n t1 t2 t3 l1 l2 l3
      = (jstate (fun i => toRad ((anglesDeg n t1 t2 t3).getD i 0))
          (fun i => (lengths n l1 l2 l3).getD i 0) n).1 := rfl
  rw [he, hT, matVec_rtMat, hj, h.2]
  simp

/-- C8: for each supported number of links, the last point of the `joints`
polyline (running angle sums) equals the end-effector computed from the
homogeneous matrix product `Tfk` applied to `[0,0,1]ᵀ`, in exact real
arithmetic. -/
theorem arm_joints_agree_with_Tfk (t1 t2 t3 l1 l2 l3 : ℝ) :
    ((joints 1 t1 t2 t3 l1 l2 l3).getLastD (0, 0) = endFK 1 t1 t2 t3 l1 l2 l3)
    ∧ ((joints 2 t1 t2 t3 l1 l2 l3).getLastD (0, 0) = endFK 2 t1 t2 t3 l1 l2 l3)
    ∧ ((joints 3 t1 t2 t3 l1 l2 l3).getLastD (0, 0) = endFK 3 t1 t2 t3 l1 l2 l3) :=
  ⟨joints_getLastD_eq_endFK 1 t1 t2 t3 l1 l2 l3,
   joints_getLastD_eq_endFK 2 t1 t2 t3 l1 l2 l3,
   joints_getLastD_eq_endFK 3 t1 t2 t3 l1 l2 l3⟩

/-- C1: for every supported number of links (1, 2 or 3), `Tfk` equals the
ordered product of the per-link rotation-then-translation matrices
`Rot2D(toRad θᵢ) * Tran2D(lᵢ, 0)` (standard matrix multiplication), and
`endFK` is the pair of the first two components of `Tfk ·ᵥ [0,0,1]ᵀ`. -/
theorem arm_Tfk_is_product (t1 t2 t3 l1 l2 l3 : ℝ) :
    (Tfk 1 t1 t2 t3 l1 l2 l3 = Rot2D (toRad t1) * Tran2D l1 0
      ∧ endFK 1 t1 t2 t3 l1 l2 l3
        = ((Tfk 1 t1 t2 t3 l1 l2 l3).mulVec ![0, 0, 1] 0,
           (Tfk 1 t1 t2 t3 l1 l2 l3).mulVec ![0, 0, 1] 1))
    ∧ (Tfk 2 t1 t2 t3 l1 l2 l3
        = Rot2D (toRad t1) * Tran2D l1 0 * (Rot2D (toRad t2) * Tran2D l2 0)
      ∧ endFK 2 t1 t2 t3 l1 l2 l3
        = ((Tfk 2 t1 t2 t3 l1 l2 l3).mulVec ![0, 0, 1] 0,
           (Tfk 2 t1 t2 t3 l1 l2 l3).mulVec ![0, 0, 1] 1))
    ∧ (Tfk 3 t1 t2 t3 l1 l2 l3
        = Rot2D (toRad t1) * Tran2D l1 0 * (Rot2D (toRad t2) * Tran2D l2 0)
            * (Rot2D (toRad t3) * Tran2D l3 0)
      ∧ endFK 3 t1 t2 t3 l1 l2 l3
        = ((Tfk 3 t1 t2 t3 l1 l2 l3).mulVec ![0, 0, 1] 0,
           (Tfk 3 t1 t2 t3 l1 l2 l3).mulVec ![0, 0, 1] 1)) := by
  refine ⟨⟨?_, ?_⟩, ⟨?_, ?_⟩, ⟨?_, ?_⟩⟩ <;>
    simp [Tfk, endFK, anglesDeg, lengths, List.range_succ,
      matMul_eq_mul, matIdentity_eq_one, matVec_eq_mulVec, mul_assoc]

/-- C9: with a single link of length `L` and joint angle `0` degrees, the
end-effector `endFK` is exactly `(L, 0)`. -/
theorem arm_single_link_zero_angle (L t2 t3 l2 l3 : ℝ) :
    endFK 1 0 t2 t3 L l2 l3 = (L, 0) := by
  simp [endFK, Tfk, anglesDeg, lengths, List.range_succ, toRad,
    matMul, matIdentity, Rot2D, Tran2D, matVec, Fin.sum_univ_three]

/-- C2: the match error is `none` exactly when the user matrix failed to
evaluate, and otherwise equals the Euclidean distance (`Math.hypot`) from
the user-matrix point `Tuser·[0,0,1]ᵀ` — with `x`, `y` divided by `w` only
when normalization is enabled and `w ≠ 0` — to the `endFK` end-effector. -/
theorem arm_err_is_distance (Tuser : Option (Matrix (Fin 3) (Fin 3) ℝ))
    (normalizeW : Bool) (numArms : ℕ) (t1 t2 t3 l1 l2 l3 : ℝ) :
    (err Tuser normalizeW numArms t1 t2 t3 l1 l2 l3 = none ↔ Tuser = none)
    ∧ ∀ T : Matrix (Fin 3) (Fin 3) ℝ,
        err (some T) normalizeW numArms t1 t2 t3 l1 l2 l3 =
          some (hypot
            ((if normalizeW = true ∧ T.mulVec ![0, 0, 1] 2 ≠ 0
              then T.mulVec ![0, 0, 1] 0 / T.mulVec ![0, 0, 1] 2
              else T.mulVec ![0, 0, 1] 0) - (endFK numArms t1 t2 t3 l1 l2 l3).1)
            ((if normalizeW = true ∧ T.mulVec ![0, 0, 1] 2 ≠ 0
              then T.mulVec ![0, 0, 1] 1 / T.mulVec ![0, 0, 1] 2
              else T.mulVec ![0, 0, 1] 1) - (endFK numArms t1 t2 t3 l1 l2 l3).2)) := by
  have hsome : ∀ (T : Matrix (Fin 3) (Fin 3) ℝ) (nw : Bool),
      endUser (some T) nw =
        if nw = true ∧ matVec T ![0, 0, 1] 2 ≠ 0
        then some (matVec T ![0, 0, 1] 0 / matVec T ![0, 0, 1] 2,
                   matVec T ![0, 0, 1] 1 / matVec T ![0, 0, 1] 2)
        else some (matVec T ![0, 0, 1] 0, matVec T ![0, 0, 1] 1) := fun T nw => rfl
  constructor
  · cases Tuser with
    | none => simp [err, endUser, endUserRaw]
    | some T =>
      simp only [err, hsome]
      split_ifs <;> simp
  · intro T
    simp only [err, hsome, matVec_eq_mulVec]
    split_ifs <;> simp

/-- Model of one mathjs cell evaluation as seen by the matrix `useEffect`
(App.tsx lines 148-154): the external `math.evaluate` may throw (message
`e`) or produce a value whose numeric coercion is modelled by
`Option ℝ` (`none` = not a number or not finite); in the latter case the
code itself throws `"NaN"`. -/
def evalCell (mev : String → Except String (Option ℝ)) (expr : String) :
    Except String ℝ :=
  match mev expr with
  | Except.error e => Except.error e
  | Except.ok none => Except.error "NaN"
  | Except.ok (some x) => Except.ok x

/-- Exception-propagating list map: the model of a JavaScript `.map` whose
body may throw inside a surrounding `try`.  The first failing element
aborts the whole traversal. -/
def mapME {α β : Type} (f : α → Except String β) : List α → Except String (List β)
  | [] => Except.ok []
  | a :: l =>
    match f a with
    | Except.error e => Except.error e
    | Except.ok b =>
      match mapME f l with
      | Except.error e => Except.error e
      | Except.ok bs => Except.ok (b :: bs)

/-- Embedding of the nested `rawCells.map(row => row.map(expr => ...))`
inside the `try` block: the first throwing cell aborts the whole
evaluation. -/
def evalMatrixCells (mev : String → Except String (Option ℝ))
    (raw : List (List String)) : Except String (List (List ℝ)) :=
  mapME (fun row => mapME (evalCell mev) row) raw

/-- Embedding of the `try/catch` state update (App.tsx lines 136-162): on
success `(Tuser, msg) := (some matrix, none)`, on any failure
`(none, some ("Matrix parse/eval error: " ++ e))`. -/
def matrixUpdate (mev : String → Except String (Option ℝ))
    (raw : List (List String)) : Option (List (List ℝ)) × Option String :=
  match evalMatrixCells mev raw with
  | Except.ok m => (some m, none)
  | Except.error e => (none, some ("Matrix parse/eval error: " ++ e))

lemma mapME_ok_iff {α β : Type} (f : α → Except String β) :
    ∀ l : List α, (∃ ys, mapME f l = Except.ok ys) ↔ ∀ a ∈ l, ∃ b, f a = Except.ok b := by
  intro l
  induction l with
  | nil => simp [mapME]
  | cons a l ih =>
    constructor
    · rintro ⟨ys, hys⟩
      simp only [mapME] at hys
      cases hfa : f a with
      | error e => simp [hfa] at hys
      | ok b =>
        simp only [hfa] at hys
        cases hml : mapME f l with
        | error e => simp [hml] at hys
        | ok bs =>
          intro x hx
          rcases List.mem_cons.mp hx with h | h
          · exact ⟨b, h ▸ hfa⟩
          · exact (ih.mp ⟨bs, hml⟩) x h
    · intro h
      rcases h a (List.mem_cons_self a l) with ⟨b, hb⟩
      rcases ih.mpr (fun x hx => h x (List.mem_cons_of_mem a hx)) with ⟨bs, hbs⟩
      exact ⟨b :: bs, by simp [mapME, hb, hbs]⟩

lemma mapME_ok_getD {α β : Type} (dα : α) (dβ : β) (f : α → Except String β) :
    ∀ (l : List α) (ys : List β), mapME f l = Except.ok ys →
      ys.length = l.length ∧
        ∀ i, i < l.length → f (l.getD i dα) = Except.ok (ys.getD i dβ) := by
  intro l
  induction l with
  | nil =>
    intro ys h
    simp only [mapME] at h
    cases h
    simp
  | cons a l ih =>
    intro ys h
    simp only [mapME] at h
    cases hfa : f a with
    | error e => simp [hfa] at h
    | ok b =>
      simp only [hfa] at h
      cases hml : mapME f l with
      | error e => simp [hml] at h
      | ok bs =>
        simp only [hml] at h
        cases h
        rcases ih bs hml with ⟨hlen, hget⟩
        refine ⟨by simp [hlen], ?_⟩
        intro i hi
        cases i with
        | zero => simpa using hfa
        | succ j =>
          simp only [List.getD_cons_succ]
          exact hget j (Nat.lt_of_succ_lt_succ hi)

/-- C3: the debounced matrix-evaluation pass is atomic.  If every cell
evaluates to a finite number then `Tuser` becomes that numeric matrix and
`msg` is cleared; if any cell throws (parse error or the non-finite check)
then `Tuser` becomes `none` — no partial matrix — and `msg` starts with
`"Matrix parse/eval error: "`. -/
theorem arm_matrix_eval_atomic (mev : String → Except String (Option ℝ))
    (raw : List (List String)) (hr : raw.length = 3)
    (hc : ∀ r ∈ raw, r.length = 3) :
    ((∀ r ∈ raw, ∀ e ∈ r, ∃ x, evalCell mev e = Except.ok x) →
      ∃ m, matrixUpdate mev raw = (some m, none)
        ∧ m.length = 3
        ∧ ∀ i j, i < 3 → j < 3 →
            (m.getD i []).length = 3
            ∧ evalCell mev ((raw.getD i []).getD j "")
                = Except.ok ((m.getD i []).getD j 0))
    ∧ ((∃ r ∈ raw, ∃ e ∈ r, ∀ x, evalCell mev e ≠ Except.ok x) →
      (matrixUpdate mev raw).1 = none
        ∧ ∃ rest, (matrixUpdate mev raw).2
            = some ("Matrix parse/eval error: " ++ rest)) := by
  constructor
  · intro hall
    have hrows : ∀ r ∈ raw, ∃ ys, mapME (evalCell mev) r = Except.ok ys := by
      intro r hrmem
      exact (mapME_ok_iff (evalCell mev) r).mpr (hall r hrmem)
    rcases (mapME_ok_iff (fun row => mapME (evalCell mev) row) raw).mpr hrows
      with ⟨m, hm⟩
    refine ⟨m, ?_, ?_, ?_⟩
    · simp [matrixUpdate, evalMatrixCells, hm]
    · rcases mapME_ok_getD ([] : List String) ([] : List ℝ)
        (fun row => mapME (evalCell mev) row) raw m hm with ⟨hlen, _⟩
      omega
    · intro i j hi hj
      rcases mapME_ok_getD ([] : List String) ([] : List ℝ)
        (fun row => mapME (evalCell mev) row) raw m hm with ⟨hlen, hget⟩
      have hrowi : mapME (evalCell mev) (raw.getD i [])
          = Except.ok (m.getD i []) := hget i (by omega)
      rcases mapME_ok_getD "" (0 : ℝ) (evalCell mev)
        (raw.getD i []) (m.getD i []) hrowi with ⟨hlen2, hget2⟩
      have hmem : raw.getD i [] ∈ raw := by
        rw [List.getD_eq_getElem raw [] (by omega : i < raw.length)]
        exact List.getElem_mem _
      have h5 : (raw.getD i []).length = 3 := hc _ hmem
      exact ⟨by omega, hget2 j (by omega)⟩
  · intro hbad
    cases hout : evalMatrixCells mev raw with
    | ok m =>
      exfalso
      rcases hbad with ⟨r, hrmem, e, hemem, hbadcell⟩
      have hrows := (mapME_ok_iff
        (fun row => mapME (evalCell mev) row) raw).mp ⟨m, hout⟩
      rcases hrows r hrmem with ⟨ys, hys⟩
      rcases (mapME_ok_iff (evalCell mev) r).mp ⟨ys, hys⟩ e hemem with ⟨x, hx⟩
      exact hbadcell x hx
    | error e =>
      refine ⟨?_, e, ?_⟩ <;> simp [matrixUpdate, hout]

/-- Demonstration inputs for the matrix-evaluation witness. -/
def rawDemo : List (List String) :=
  [["a", "b", "c"], ["d", "e", "f"], ["g", "h", "i"]]

/-- A mathjs model in which every cell evaluates to the finite number 1. -/
def mevDemo : String → Except String (Option ℝ) := fun _ => Except.ok (some 1)

/-- Witness for `arm_matrix_eval_atomic` at a concrete 3×3 grid. -/
theorem arm_matrix_eval_atomic_witness :
    (rawDemo.length = 3 ∧ (∀ r ∈ rawDemo, r.length = 3)) ∧
    (((∀ r ∈ rawDemo, ∀ e ∈ r, ∃ x, evalCell mevDemo e = Except.ok x) →
      ∃ m, matrixUpdate mevDemo rawDemo = (some m, none)
        ∧ m.length = 3
        ∧ ∀ i j, i < 3 → j < 3 →
            (m.getD i []).length = 3
            ∧ evalCell mevDemo ((rawDemo.getD i []).getD j "")
                = Except.ok ((m.getD i []).getD j 0))
    ∧ ((∃ r ∈ rawDemo, ∃ e ∈ r, ∀ x, evalCell mevDemo e ≠ Except.ok x) →
      (matrixUpdate mevDemo rawDemo).1 = none
        ∧ ∃ rest, (matrixUpdate mevDemo rawDemo).2
            = some ("Matrix parse/eval error: " ++ rest))) :=
  ⟨⟨by decide, by decide⟩,
   arm_matrix_eval_atomic mevDemo rawDemo (by decide) (by decide)⟩

end

end ArmApp

namespace RTT

noncomputable section

/-- Embedding of `l0` (School.tsx line 26). -/
def l0 : ℝ := 1

/-- Embedding of `q1` (School.tsx line 27): `4.0 * t - Math.PI / 2.0`. -/
def q1 (t : ℝ) : ℝ := 4 * t - Real.pi / 2

/-- Embedding of `q2` (School.tsx line 28): `6.0 - 2.0 * t`. -/
def q2 (t : ℝ) : ℝ := 6 - 2 * t

/-- Embedding of `q3` (School.tsx line 29): `3.0 * t + 1.0`. -/
def q3 (t : ℝ) : ℝ := 3 * t + 1

/-- Embedding of `N` (School.tsx line 31): the number of samples. -/
def N : ℕ := 601

/-- Embedding of `tmin` (School.tsx line 32). -/
def tmin : ℝ := 0

/-- Embedding of `tmax` (School.tsx line 32). -/
def tmax : ℝ := 3

/-- Embedding of the sample times `T` (School.tsx line 37):
`Array.from({length: N}, (_, i) => tmin + (tmax - tmin) * i / (N - 1))`. -/
def Tsamples : List ℝ :=
  (List.range N).map (fun i : ℕ => tmin + (tmax - tmin) * (i : ℝ) / ((N : ℝ) - 1))

/-- Embedding of `theta = T.map(q1)` (School.tsx line 38). -/
def thetaList : List ℝ := Tsamples.map q1

/-- Embedding of `r = T.map(q3)` (School.tsx line 39). -/
def rList : List ℝ := Tsamples.map q3

/-- Embedding of `z = T.map(tt => l0 + q2(tt))` (School.tsx line 40). -/
def zList : List ℝ := Tsamples.map (fun tt => l0 + q2 tt)

/-- Embedding of `x = T.map((_, i) => r[i] * Math.cos(theta[i]))` (line 41). -/
def xList : List ℝ :=
  (List.range N).map (fun i => rList.getD i 0 * Real.cos (thetaList.getD i 0))

/-- Embedding of `y = T.map((_, i) => r[i] * Math.sin(theta[i]))` (line 42). -/
def yList : List ℝ :=
  (List.range N).map (fun i => rList.getD i 0 * Real.sin (thetaList.getD i 0))

/-- The CSV header written by `csvHref` (School.tsx line 143). -/
def csvHeader : String := "t,x,y,z"

/-- The numeric content of the CSV body (School.tsx line 144): row `k` holds
the quadruple written as `` `${tt},${x[k]},${y[k]},${z[k]}` ``. -/
def csvRows : List (ℝ × ℝ × ℝ × ℝ) :=
  (List.range N).map
    (fun k => (Tsamples.getD k 0, xList.getD k 0, yList.getD k 0, zList.getD k 0))

lemma Tsamples_getElem? (k : ℕ) (hk : k < N) :
    Tsamples[k]? = some (3 * (k : ℝ) / 600) := by
  unfold Tsamples
  rw [List.getElem?_map, List.getElem?_range hk, Option.map_some']
  congr 1
  simp only [tmin, tmax, N]
  norm_num

lemma Tsamples_getD (k : ℕ) (hk : k < N) :
    Tsamples.getD k 0 = 3 * (k : ℝ) / 600 := by
  rw [List.getD_eq_getElem?_getD, Tsamples_getElem? k hk, Option.getD_some]

lemma thetaList_getD (k : ℕ) (hk : k < N) :
    thetaList.getD k 0 = q1 (3 * (k : ℝ) / 600) := by
  unfold thetaList
  rw [List.getD_eq_getElem?_getD, List.getElem?_map, Tsamples_getElem? k hk,
    Option.map_some', Option.getD_some]

lemma rList_getD (k : ℕ) (hk : k < N) :
    rList.getD k 0 = q3 (3 * (k : ℝ) / 600) := by
  unfold rList
  rw [List.getD_eq_getElem?_getD, List.getElem?_map, Tsamples_getElem? k hk,
    Option.map_some', Option.getD_some]

lemma zList_getD (k : ℕ) (hk : k < N) :
    zList.getD k 0 = l0 + q2 (3 * (k : ℝ) / 600) := by
  unfold zList
  rw [List.getD_eq_getElem?_getD, List.getElem?_map, Tsamples_getElem? k hk,
    Option.map_some', Option.getD_some]

lemma xList_getD (k : ℕ) (hk : k < N) :
    xList.getD k 0
      = q3 (3 * (k : ℝ) / 600) * Real.cos (q1 (3 * (k : ℝ) / 600)) := by
  unfold xList
  rw [List.getD_eq_getElem?_getD, List.getElem?_map, List.getElem?_range hk,
    Option.map_some', Option.getD_some, rList_getD k hk, thetaList_getD k hk]

lemma yList_getD (k : ℕ) (hk : k < N) :
    yList.getD k 0
      = q3 (3 * (k : ℝ) / 600) * Real.sin (q1 (3 * (k : ℝ) / 600)) := by
  unfold yList
  rw [List.getD_eq_getElem?_getD, List.getElem?_map, List.getElem?_range hk,
    Option.map_some', Option.getD_some, rList_getD k hk, thetaList_getD k hk]

/-- C7: the trajectory CSV is the header `"t,x,y,z"` followed by exactly
601 data rows; row `k` holds `t_k = 3k/600`, `x = q3(t_k)·cos(q1(t_k))`,
`y = q3(t_k)·sin(q1(t_k))` and `z = l0 + q2(t_k)` with `l0 = 1`. -/
theorem rtt_csv_trajectory :
    csvHeader = "t,x,y,z"
    ∧ l0 = 1
    ∧ csvRows.length = 601
    ∧ ∀ k, k < 601 →
        csvRows.getD k (0, 0, 0, 0) =
          (3 * (k : ℝ) / 600,
           q3 (3 * (k : ℝ) / 600) * Real.cos (q1 (3 * (k : ℝ) / 600)),
           q3 (3 * (k : ℝ) / 600) * Real.sin (q1 (3 * (k : ℝ) / 600)),
           l0 + q2 (3 * (k : ℝ) / 600)) := by
  refine ⟨rfl, rfl, ?_, ?_⟩
  · unfold csvRows
    rw [List.length_map, List.length_range]
    rfl
  · intro k hk
    have hkN : k < N := hk
    unfold csvRows
    rw [List.getD_eq_getElem?_getD, List.getElem?_map, List.getElem?_range hkN,
      Option.map_some', Option.getD_some, Tsamples_getD k hkN,
      xList_getD k hkN, yList_getD k hkN, zList_getD k hkN]

/-- Witness for `rtt_csv_trajectory` at the last sample `k = 600`. -/
theorem rtt_csv_trajectory_witness :
    (600 < 601)
    ∧ csvRows.getD 600 (0, 0, 0, 0) =
        (3 * ((600 : ℕ) : ℝ) / 600,
         q3 (3 * ((600 : ℕ) : ℝ) / 600) * Real.cos (q1 (3 * ((600 : ℕ) : ℝ) / 600)),
         q3 (3 * ((600 : ℕ) : ℝ) / 600) * Real.sin (q1 (3 * ((600 : ℕ) : ℝ) / 600)),
         l0 + q2 (3 * ((600 : ℕ) : ℝ) / 600)) :=
  ⟨by decide, rtt_csv_trajectory.2.2.2 600 (by decide)⟩

end

end RTT

namespace Wordle

/-- The character class `[a-z]` used by `normalizeWord` and `isFiveLetter`. -/
def isLowerAZ (c : Char) : Bool := decide ('a' ≤ c) && decide (c ≤ 'z')

/-- Embedding of `normalizeWord` (WordlePattern.tsx line 167):
`w.toLowerCase().replace(/[^a-z]/g, "")`. -/
def normalizeWord (w : String) : String :=
  ⟨(w.data.map Char.toLower).filter isLowerAZ⟩

/-- Embedding of `isFiveLetter` (WordlePattern.tsx line 168): `/^[a-z]{5}$/`. -/
def isFiveLetter (w : String) : Bool :=
  decide (w.data.length = 5) && w.data.all isLowerAZ

lemma toLower_of_isLowerAZ (c : Char) (h : isLowerAZ c = true) : c.toLower = c := by
  simp only [isLowerAZ, Bool.and_eq_true, decide_eq_true_eq] at h
  obtain ⟨h1, h2⟩ := h
  have hn : (97 : ℕ) ≤ c.toNat := h1
  unfold Char.toLower
  rw [if_neg]
  omega

lemma normalizeWord_of_isFiveLetter (w : String) (h : isFiveLetter w = true) :
    normalizeWord w = w := by
  simp only [isFiveLetter, Bool.and_eq_true, decide_eq_true_eq,
    List.all_eq_true] at h
  obtain ⟨hlen, haz⟩ := h
  have hmap : w.data.map Char.toLower = w.data := by
    have hpt : ∀ c ∈ w.data, Char.toLower c = c :=
      fun c hc => toLower_of_isLowerAZ c (haz c hc)
    calc w.data.map Char.toLower = w.data.map id := List.map_congr_left hpt
      _ = w.data := List.map_id _
  have hfil : w.data.filter isLowerAZ = w.data := List.filter_eq_self.mpr haz
  show (⟨(w.data.map Char.toLower).filter isLowerAZ⟩ : String) = w
  rw [hmap, hfil]

lemma isFiveLetter_length (w : String) (h : isFiveLetter w = true) :
    w.data.length = 5 := by
  simp only [isFiveLetter, Bool.and_eq_true, decide_eq_true_eq] at h
  exact h.1

/-! ### The Wordle board grid -/

/-- Embedding of the initial grid state (WordlePattern.tsx line 412):
`Array.from({length: 6}, () => Array.from({length: 5}, () => 0))`. -/
def initGrid : List (List ℕ) := List.replicate 6 (List.replicate 5 0)

/-- Embedding of `GridEditor.paint` (WordlePattern.tsx lines 334-340):
copy the grid and set cell `(r, c)` to the active color. -/
def paint (grid : List (List ℕ)) (r c : ℕ) (activeColor : ℕ) : List (List ℕ) :=
  grid.set r ((grid.getD r []).set c activeColor)

/-- Embedding of the grid written by `resetAll` (WordlePattern.tsx line 433). -/
def resetAllGrid : List (List ℕ) := List.replicate 6 (List.replicate 5 0)

/-- Embedding of the grid written by `loadDemoPattern` (lines 438-450); the
trailing `...Array(0).fill(...)` spread adds nothing and `.map(r => r.slice())`
is a value-level identity. -/
def demoGrid : List (List ℕ) :=
  [[2, 2, 1, 2, 2], [2, 2, 1, 2, 2], [1, 1, 2, 1, 1],
   [1, 1, 2, 1, 1], [3, 1, 1, 1, 3], [3, 3, 3, 3, 3]]

/-- The board invariant: 6 rows of 5 cells, each cell one of the four
`ColorKey` enum values `0 | 1 | 2 | 3`. -/
def wfGrid (g : List (List ℕ)) : Prop :=
  g.length = 6 ∧ ∀ r ∈ g, r.length = 5 ∧ ∀ v ∈ r, v = 0 ∨ v = 1 ∨ v = 2 ∨ v = 3

instance (g : List (List ℕ)) : Decidable (wfGrid g) := by
  unfold wfGrid
  infer_instance

/-- C10: the initial grid, painting any cell with a `ColorKey` color,
Reset All, and the demo pattern all yield a 6×5 grid whose cells are among
the four enum values. -/
theorem wordle_grid_invariant :
    wfGrid initGrid
    ∧ (∀ g r c col, wfGrid g → (col = 0 ∨ col = 1 ∨ col = 2 ∨ col = 3) →
        wfGrid (paint g r c col))
    ∧ wfGrid resetAllGrid
    ∧ wfGrid demoGrid := by
  refine ⟨by decide, ?_, by decide, by decide⟩
  intro g r c col hg hcol
  obtain ⟨hlen, hrows⟩ := hg
  by_cases hr : r < g.length
  · constructor
    · simpa [paint] using hlen
    · intro row hrow
      rcases List.mem_or_eq_of_mem_set hrow with h | h
      · exact hrows row h
      · subst h
        have hmem : g.getD r [] ∈ g := by
          rw [List.getD_eq_getElem g [] hr]
          exact List.getElem_mem hr
        obtain ⟨hl5, hvals⟩ := hrows _ hmem
        constructor
        · simpa using hl5
        · intro v hv
          rcases List.mem_or_eq_of_mem_set hv with h2 | h2
          · exact hvals v h2
          · subst h2; exact hcol
  · have : paint g r c col = g := by
      unfold paint
      exact List.set_eq_of_length_le (by omega)
    rw [this]
    exact ⟨hlen, hrows⟩

/-- Witness for `wordle_grid_invariant`: painting cell `(0,0)` yellow on the
initial grid. -/
theorem wordle_grid_invariant_witness :
    (wfGrid initGrid ∧ ((2 : ℕ) = 0 ∨ (2 : ℕ) = 1 ∨ (2 : ℕ) = 2 ∨ (2 : ℕ) = 3))
    ∧ wfGrid (paint initGrid 0 0 2) :=
  ⟨⟨by decide, by decide⟩,
   wordle_grid_invariant.2.1 initGrid 0 0 2 (by decide) (by decide)⟩

/-! ### Word-list loading -/

/-- Embedding of the embedded `FALLBACK` template literal
(WordlePattern.tsx lines 9-144), verbatim. -/
def FALLBACK : String := "cigar
rebut
sissy
humph
awake
blush
focal
evade
serve
heath
dwarf
model
karma
stink
grade
quiet
bench
abate
feign
major
death
fresh
crust
stool
colon
marry
react
crate
trace
track
crane
slate
least
alert
later
route
actor
adore
canon
charm
cheap
chief
child
choir
clone
crisp
crown
dodge
fence
flame
ghost
glove
grand
grape
green
heart
honey
laugh
light
liver
lunar
lunch
night
noble
nurse
ocean
piano
plant
point
print
proud
raise
reach
ready
right
river
robot
round
shade
shape
sharp
shine
short
smile
snake
spice
spine
spite
sport
stack
stair
stamp
stand
start
state
steam
steel
stick
stone
story
straw
study
sugar
sweet
swing
table
taste
teach
thank
these
thing
three
tiger
title
today
token
total
touch
trace
train
truth
tutor
vivid
voice
watch
wheat
where
which
white
whole
woman
world
worry
young
youth
zebra"

/-- Character-level splitter modelling `txt.split(/\s+/)`: splitting at every
whitespace character.  Splitting at each single whitespace (rather than at
runs) only adds empty chunks, which the later `isFiveLetter` filter
removes, so the downstream word lists agree with the JavaScript ones. -/
def splitWSAux : List Char → List Char → List String
  | [], acc => [String.mk acc.reverse]
  | c :: cs, acc =>
    if c.isWhitespace then String.mk acc.reverse :: splitWSAux cs []
    else splitWSAux cs (c :: acc)

/-- Split a string at whitespace characters. -/
def splitWS (s : String) : List String := splitWSAux s.data []

/-- Embedding of `txt.split(/\s+/).map(normalizeWord).filter(isFiveLetter)`
(WordlePattern.tsx lines 222 and 232). -/
def parseWords (txt : String) : List String :=
  ((splitWS txt).map normalizeWord).filter isFiveLetter

/-- First-occurrence-preserving deduplication, the order produced by
`Array.from(new Set(parsed))` (WordlePattern.tsx line 223). -/
def dedupAux (seen : List String) : List String → List String
  | [] => []
  | w :: rest =>
    if w ∈ seen then dedupAux seen rest else w :: dedupAux (w :: seen) rest

/-- `Array.from(new Set(l))`. -/
def dedupJS (l : List String) : List String := dedupAux [] l

/-- The fallback word list as computed in the `catch` branch
(WordlePattern.tsx line 232): parsed from `FALLBACK` with *no*
deduplication. -/
def fallbackWords : List String := parseWords FALLBACK

/-- Embedding of the `loadWords` outcome on the state
`(words, error, loading)`.  `fetched = none` models any failed fetch or
file read (non-OK HTTP status, HTML response, read error) with `emsg` the
thrown message; `fetched = some txt` models successfully obtained text.
An empty parsed list throws `"No valid 5-letter words found in file."`,
caught by the same `catch`; the `finally` always ends with
`loading = false`. -/
def loadOutcome (fetched : Option String) (emsg : String) :
    List String × String × Bool :=
  match fetched with
  | none => (fallbackWords, "Error: " ++ emsg ++ ". Using fallback list.", false)
  | some txt =>
    let uniq := dedupJS (parseWords txt)
    if uniq.isEmpty then
      (fallbackWords,
       "Error: No valid 5-letter words found in file.. Using fallback list.",
       false)
    else (uniq, "", false)

lemma dedupAux_subset :
    ∀ (rest seen : List String), ∀ w ∈ dedupAux seen rest, w ∈ rest := by
  intro rest
  induction rest with
  | nil => intro seen w hw; simp [dedupAux] at hw
  | cons a rest ih =>
    intro seen w hw
    unfold dedupAux at hw
    by_cases h : a ∈ seen
    · rw [if_pos h] at hw
      exact List.mem_cons_of_mem a (ih seen w hw)
    · rw [if_neg h] at hw
      rcases List.mem_cons.mp hw with h2 | h2
      · exact h2 ▸ List.mem_cons_self a rest
      · exact List.mem_cons_of_mem a (ih (a :: seen) w h2)

lemma dedupAux_nodup_notin :
    ∀ (rest seen : List String),
      (dedupAux seen rest).Nodup ∧ ∀ w ∈ dedupAux seen rest, w ∉ seen := by
  intro rest
  induction rest with
  | nil => intro seen; simp [dedupAux]
  | cons a rest ih =>
    intro seen
    unfold dedupAux
    by_cases h : a ∈ seen
    · rw [if_pos h]
      exact ih seen
    · rw [if_neg h]
      obtain ⟨hnd, hnin⟩ := ih (a :: seen)
      constructor
      · refine List.nodup_cons.mpr ⟨?_, hnd⟩
        intro hmem
        exact hnin a hmem (List.mem_cons_self a seen)
      · intro w hw
        rcases List.mem_cons.mp hw with h2 | h2
        · exact h2 ▸ h
        · exact fun hs => hnin w h2 (List.mem_cons_of_mem a hs)

lemma dedupJS_nodup (l : List String) : (dedupJS l).Nodup :=
  (dedupAux_nodup_notin l []).1

lemma dedupJS_subset (l : List String) : ∀ w ∈ dedupJS l, w ∈ l :=
  dedupAux_subset l []

lemma parseWords_five (txt : String) :
    ∀ w ∈ parseWords txt, isFiveLetter w = true := by
  intro w hw
  exact (List.mem_filter.mp hw).2

lemma fallbackWords_ne_nil : fallbackWords ≠ [] := by
  have h : "cigar" ∈ fallbackWords := by decide
  exact List.ne_nil_of_mem h

lemma append_msg_ne_empty (emsg tail : String) :
    "Error: " ++ emsg ++ tail ≠ "" := by
  intro h
  have hlen := congrArg String.length h
  rw [String.length_append, String.length_append] at hlen
  have h7 : "Error: ".length = 7 := rfl
  have h0 : "".length = 0 := rfl
  rw [h7, h0] at hlen
  omega

/-- C6 (amended): whenever loading fails — failed fetch/read or no valid
word after normalization — `words` is set to the fallback list parsed from
`FALLBACK` (normalized, filtered to 5-letter words, non-empty, but *not*
deduplicated) and a non-empty error message is set; on success `words` is
the deduplicated parsed list and the error is cleared; `loading` always
ends `false`. -/
theorem wordle_loadWords_outcome (fetched : Option String) (emsg : String) :
    ((loadOutcome fetched emsg).2.2 = false)
    ∧ (fetched = none →
        (loadOutcome fetched emsg).1 = fallbackWords
        ∧ (loadOutcome fetched emsg).2.1 ≠ "")
    ∧ (∀ txt, fetched = some txt →
        (dedupJS (parseWords txt) = [] →
          (loadOutcome fetched emsg).1 = fallbackWords
          ∧ (loadOutcome fetched emsg).2.1 ≠ "")
        ∧ (dedupJS (parseWords txt) ≠ [] →
          (loadOutcome fetched emsg).1 = dedupJS (parseWords txt)
          ∧ (loadOutcome fetched emsg).1.Nodup
          ∧ (loadOutcome fetched emsg).2.1 = ""))
    ∧ (∀ w ∈ (loadOutcome fetched emsg).1, isFiveLetter w = true)
    ∧ (loadOutcome fetched emsg).1 ≠ [] := by
  cases fetched with
  | none =>
    refine ⟨rfl, ?_, ?_, ?_, ?_⟩
    · intro _
      exact ⟨rfl, append_msg_ne_empty emsg ". Using fallback list."⟩
    · intro txt h; cases h
    · intro w hw
      exact parseWords_five FALLBACK w hw
    · exact fallbackWords_ne_nil
  | some txt =>
    by_cases h : dedupJS (parseWords txt) = []
    · have hout : loadOutcome (some txt) emsg =
          (fallbackWords,
           "Error: No valid 5-letter words found in file.. Using fallback list.",
           false) := by
        simp [loadOutcome, List.isEmpty_iff, h]
      refine ⟨by rw [hout], ?_, ?_, ?_, ?_⟩
      · intro hcontra; cases hcontra
      · intro txt2 heq
        cases heq
        constructor
        · intro _
          rw [hout]
          exact ⟨rfl, by decide⟩
        · intro hne; exact absurd h hne
      · intro w hw
        rw [hout] at hw
        exact parseWords_five FALLBACK w hw
      · rw [hout]
        exact fallbackWords_ne_nil
    · have hout : loadOutcome (some txt) emsg =
          (dedupJS (parseWords txt), "", false) := by
        simp [loadOutcome, List.isEmpty_iff, h]
      refine ⟨by rw [hout], ?_, ?_, ?_, ?_⟩
      · intro hcontra; cases hcontra
      · intro txt2 heq
        cases heq
        constructor
        · intro hcontra; exact absurd hcontra h
        · intro _
          rw [hout]
          exact ⟨rfl, dedupJS_nodup (parseWords txt), rfl⟩
      · intro w hw
        rw [hout] at hw
        exact parseWords_five txt w (dedupJS_subset (parseWords txt) w hw)
      · rw [hout]
        exact h

/-- Witness for `wordle_loadWords_outcome`: a failed fetch. -/
theorem wordle_loadWords_outcome_witness :
    ((none : Option String) = none)
    ∧ (loadOutcome none "HTTP error 404").1 = fallbackWords
    ∧ (loadOutcome none "HTTP error 404").2.1 ≠ "" :=
  ⟨rfl,
   ((wordle_loadWords_outcome none "HTTP error 404").2.1 rfl).1,
   ((wordle_loadWords_outcome none "HTTP error 404").2.1 rfl).2⟩

/-- Counterexample to C6 as stated: the fallback path does *not* deduplicate.
`FALLBACK` contains `"trace"` twice, so the word list installed after a
failed load has a duplicate. -/
theorem wordle_fallback_not_dedup :
    ¬ (loadOutcome none "HTTP error 404").1.Nodup := by
  intro hn
  have h1 : (loadOutcome none "HTTP error 404").1 = fallbackWords := rfl
  rw [h1] at hn
  have h2 : List.count "trace" fallbackWords = 2 := by decide
  have h3 := List.nodup_iff_count_le_one.mp hn "trace"
  omega

/-! ### Wordle scoring -/

/-- The `solCounts[x]++` update of `scoreWordle`'s first pass. -/
def bump (cnt : Char → ℕ) (c : Char) : Char → ℕ :=
  fun d => if d = c then cnt d + 1 else cnt d

/-- The `solCounts[x]--` update of `scoreWordle`'s second pass. -/
def drop1 (cnt : Char → ℕ) (c : Char) : Char → ℕ :=
  fun d => if d = c then cnt d - 1 else cnt d

/-- First pass of `scoreWordle` (WordlePattern.tsx lines 176-179): walk the
guess/solution character pairs left to right, flagging exact matches and
counting the solution letters at the non-matching positions. -/
def pass1 : List (Char × Char) → (Char → ℕ) → List Bool × (Char → ℕ)
  | [], cnt => ([], cnt)
  | p :: rest, cnt =>
    if p.1 = p.2 then
      let r := pass1 rest cnt
      (true :: r.1, r.2)
    else
      let r := pass1 rest (bump cnt p.2)
      (false :: r.1, r.2)

/-- Second pass (WordlePattern.tsx lines 180-185): exact matches score 3;
otherwise score 2 and consume a count if the guess letter still has one,
else score 1. -/
def pass2 : List (Bool × Char) → (Char → ℕ) → List ℕ
  | [], _ => []
  | q :: rest, cnt =>
    if q.1 = true then 3 :: pass2 rest cnt
    else if 0 < cnt q.2 then 2 :: pass2 rest (drop1 cnt q.2)
    else 1 :: pass2 rest cnt

/-- Embedding of `scoreWordle` (WordlePattern.tsx lines 172-186).  The two
`for (i = 0; i < 5; i++)` loops over the two (five-letter) strings are
rendered as structural recursion over the zipped character lists; on the
five-letter inputs the claims range over, this is the same computation. -/
def scoreWordle (guess solution : String) : List ℕ :=
  let g := (normalizeWord guess).data
  let s := (normalizeWord solution).data
  let fp := pass1 (g.zip s) (fun _ => 0)
  pass2 (fp.1.zip g) fp.2

/-- Yellows already consumed before position `i`: earlier positions whose
guess letter is `c` and which were scored 2. -/
def yellowsBefore (gs : List Char) (out : List ℕ) (i : ℕ) (c : Char) : ℕ :=
  ((gs.zip out).take i).countP (fun x => decide (x.1 = c ∧ x.2 = 2))

/-- Occurrences of `c` in the solution that are not consumed by exact
matches: solution positions holding `c` where the guess disagrees. -/
def availOcc (gd sd : List Char) (c : Char) : ℕ :=
  (gd.zip sd).countP (fun p => decide (p.2 = c) && !decide (p.1 = p.2))

lemma pass1_fst :
    ∀ (ps : List (Char × Char)) (cnt : Char → ℕ),
      (pass1 ps cnt).1 = ps.map (fun p => decide (p.1 = p.2)) := by
  intro ps
  induction ps with
  | nil => intro cnt; simp [pass1]
  | cons p rest ih =>
    intro cnt
    unfold pass1
    by_cases h : p.1 = p.2
    · rw [if_pos h]
      simp [ih, h]
    · rw [if_neg h]
      simp [ih, h]

lemma pass1_snd :
    ∀ (ps : List (Char × Char)) (cnt : Char → ℕ) (c : Char),
      (pass1 ps cnt).2 c
        = cnt c + ps.countP (fun p => decide (p.2 = c) && !decide (p.1 = p.2)) := by
  intro ps
  induction ps with
  | nil => intro cnt c; simp [pass1]
  | cons p rest ih =>
    intro cnt c
    unfold pass1
    rw [List.countP_cons]
    by_cases h : p.1 = p.2
    · rw [if_pos h]
      have hpred : (decide (p.2 = c) && !decide (p.1 = p.2)) = false := by
        simp [h]
      rw [hpred]
      simpa using ih cnt c
    · rw [if_neg h]
      show (pass1 rest (bump cnt p.2)).2 c = _
      rw [ih (bump cnt p.2) c]
      have hpred : (decide (p.2 = c) && !decide (p.1 = p.2)) = decide (p.2 = c) := by
        simp [h]
      rw [hpred]
      unfold bump
      by_cases h2 : c = p.2
      · rw [if_pos h2]
        have : (p.2 = c) := h2.symm
        simp [this]
        omega
      · rw [if_neg h2]
        have : ¬ (p.2 = c) := fun heq => h2 heq.symm
        simp [this]

lemma pass2_length :
    ∀ (qs : List (Bool × Char)) (cnt : Char → ℕ),
      (pass2 qs cnt).length = qs.length := by
  intro qs
  induction qs with
  | nil => intro cnt; simp [pass2]
  | cons q rest ih =>
    intro cnt
    unfold pass2
    by_cases h : q.1 = true
    · rw [if_pos h]; simp [ih]
    · rw [if_neg h]
      by_cases hc : 0 < cnt q.2
      · rw [if_pos hc]; simp [ih]
      · rw [if_neg hc]; simp [ih]

lemma pass2_values :
    ∀ (qs : List (Bool × Char)) (cnt : Char → ℕ) (v : ℕ),
      v ∈ pass2 qs cnt → v = 1 ∨ v = 2 ∨ v = 3 := by
  intro qs
  induction qs with
  | nil => intro cnt v hv; simp [pass2] at hv
  | cons q rest ih =>
    intro cnt v hv
    unfold pass2 at hv
    by_cases h : q.1 = true
    · rw [if_pos h] at hv
      rcases List.mem_cons.mp hv with h2 | h2
      · omega
      · exact ih cnt v h2
    · rw [if_neg h] at hv
      by_cases hc : 0 < cnt q.2
      · rw [if_pos hc] at hv
        rcases List.mem_cons.mp hv with h2 | h2
        · omega
        · exact ih (drop1 cnt q.2) v h2
      · rw [if_neg hc] at hv
        rcases List.mem_cons.mp hv with h2 | h2
        · omega
        · exact ih cnt v h2

lemma yellowsBefore_cons (a : Char) (b : ℕ) (gs : List Char) (out : List ℕ)
    (i : ℕ) (c : Char) :
    yellowsBefore (a :: gs) (b :: out) (i + 1) c
      = yellowsBefore gs out i c + (if a = c ∧ b = 2 then 1 else 0) := by
  unfold yellowsBefore
  rw [List.zip_cons_cons, List.take_succ_cons, List.countP_cons]
  simp

/-- Elementwise description of `pass2`: position `i` scores 3 when flagged
green, otherwise 2 exactly when the yellows consumed before `i` on the same
letter have not exhausted its count, else 1. -/
lemma pass2_getD :
    ∀ (qs : List (Bool × Char)) (cnt : Char → ℕ) (i : ℕ), i < qs.length →
      (pass2 qs cnt).getD i 0 =
        if (qs.getD i (true, ' ')).1 = true then 3
        else if yellowsBefore (qs.map Prod.snd) (pass2 qs cnt) i
                  (qs.getD i (true, ' ')).2
                < cnt (qs.getD i (true, ' ')).2 then 2
        else 1 := by
  intro qs
  induction qs with
  | nil => intro cnt i hi; simp at hi
  | cons q rest ih =>
    intro cnt i hi
    cases i with
    | zero =>
      unfold pass2
      by_cases hq : q.1 = true
      · rw [if_pos hq]
        simp [hq]
      · rw [if_neg hq]
        by_cases hc : 0 < cnt q.2
        · rw [if_pos hc]
          simp [hq, hc, yellowsBefore]
        · rw [if_neg hc]
          simp [hq, hc, yellowsBefore]
    | succ j =>
      have hj : j < rest.length := Nat.lt_of_succ_lt_succ hi
      by_cases hq : q.1 = true
      · have hout : pass2 (q :: rest) cnt = 3 :: pass2 rest cnt := by
          simp only [pass2]
          rw [if_pos hq]
        rw [hout]
        simp only [List.getD_cons_succ, List.map_cons, yellowsBefore_cons]
        have hhead : (if q.2 = (rest.getD j (true, ' ')).2 ∧ (3 : ℕ) = 2
            then 1 else 0) = 0 := if_neg (fun hand => absurd hand.2 (by omega))
        simp only [hhead, Nat.add_zero]
        exact ih cnt j hj
      · by_cases hc : 0 < cnt q.2
        · have hout : pass2 (q :: rest) cnt = 2 :: pass2 rest (drop1 cnt q.2) := by
            simp only [pass2]
            rw [if_neg hq, if_pos hc]
          rw [hout]
          simp only [List.getD_cons_succ, List.map_cons, yellowsBefore_cons]
          rw [ih (drop1 cnt q.2) j hj]
          set p := rest.getD j (true, ' ') with hp
          by_cases hflag : p.1 = true
          · simp only [if_pos hflag]
          · simp only [if_neg hflag, and_true]
            set y := yellowsBefore (rest.map Prod.snd)
                (pass2 rest (drop1 cnt q.2)) j p.2 with hy
            by_cases hqc : q.2 = p.2
            · have hdrop : drop1 cnt q.2 p.2 = cnt p.2 - 1 := by
                unfold drop1; rw [if_pos hqc.symm]
              have hcnt : 0 < cnt p.2 := hqc ▸ hc
              simp only [if_pos hqc, hdrop]
              by_cases hyb : y < cnt p.2 - 1
              · rw [if_pos hyb, if_pos (by omega)]
              · rw [if_neg hyb, if_neg (by omega)]
            · have hdrop : drop1 cnt q.2 p.2 = cnt p.2 := by
                unfold drop1; rw [if_neg (fun h => hqc h.symm)]
              simp only [if_neg hqc, hdrop, Nat.add_zero]
        · have hout : pass2 (q :: rest) cnt = 1 :: pass2 rest cnt := by
            simp only [pass2]
            rw [if_neg hq, if_neg hc]
          rw [hout]
          simp only [List.getD_cons_succ, List.map_cons, yellowsBefore_cons]
          have hhead : (if q.2 = (rest.getD j (true, ' ')).2 ∧ (1 : ℕ) = 2
              then 1 else 0) = 0 := if_neg (fun hand => absurd hand.2 (by omega))
          simp only [hhead, Nat.add_zero]
          exact ih cnt j hj

/-- The total number of yellows on a letter never exceeds its initial
count. -/
lemma pass2_yellow_le :
    ∀ (qs : List (Bool × Char)) (cnt : Char → ℕ) (c : Char),
      ((qs.map Prod.snd).zip (pass2 qs cnt)).countP
          (fun x => decide (x.1 = c ∧ x.2 = 2)) ≤ cnt c := by
  intro qs
  induction qs with
  | nil => intro cnt c; simp [pass2]
  | cons q rest ih =>
    intro cnt c
    by_cases hq : q.1 = true
    · have hout : pass2 (q :: rest) cnt = 3 :: pass2 rest cnt := by
        simp only [pass2]; rw [if_pos hq]
      rw [hout]
      simp only [List.map_cons, List.zip_cons_cons, List.countP_cons,
        decide_eq_true_eq]
      have hhead : (if q.2 = c ∧ (3 : ℕ) = 2 then 1 else 0) = 0 :=
        if_neg (fun hand => absurd hand.2 (by omega))
      rw [hhead, Nat.add_zero]
      exact ih cnt c
    · by_cases hc : 0 < cnt q.2
      · have hout : pass2 (q :: rest) cnt = 2 :: pass2 rest (drop1 cnt q.2) := by
          simp only [pass2]; rw [if_neg hq, if_pos hc]
        rw [hout]
        simp only [List.map_cons, List.zip_cons_cons, List.countP_cons,
          decide_eq_true_eq, and_true]
        by_cases hqc : q.2 = c
        · subst hqc
          have htail := ih (drop1 cnt q.2) q.2
          have hdrop : drop1 cnt q.2 q.2 = cnt q.2 - 1 := by
            unfold drop1; rw [if_pos rfl]
          rw [hdrop] at htail
          rw [if_pos rfl]
          omega
        · have htail := ih (drop1 cnt q.2) c
          have hdrop : drop1 cnt q.2 c = cnt c := by
            unfold drop1; rw [if_neg (fun h => hqc h.symm)]
          rw [hdrop] at htail
          rw [if_neg hqc, Nat.add_zero]
          exact htail
      · have hout : pass2 (q :: rest) cnt = 1 :: pass2 rest cnt := by
          simp only [pass2]; rw [if_neg hq, if_neg hc]
        rw [hout]
        simp only [List.map_cons, List.zip_cons_cons, List.countP_cons,
          decide_eq_true_eq]
        have hhead : (if q.2 = c ∧ (1 : ℕ) = 2 then 1 else 0) = 0 :=
          if_neg (fun hand => absurd hand.2 (by omega))
        rw [hhead, Nat.add_zero]
        exact ih cnt c

/-- Split a count along a second Boolean test. -/
lemma countP_split {α : Type} (l : List α) (p q : α → Bool) :
    l.countP p = l.countP (fun a => p a && q a)
      + l.countP (fun a => p a && !q a) := by
  induction l with
  | nil => simp
  | cons a l ih =>
    rw [List.countP_cons, List.countP_cons, List.countP_cons, ih]
    by_cases hp : p a = true <;> by_cases hq : q a = true <;>
      simp [hp, hq] <;> omega

/-- Counts agree across two lists of the same length whose entries satisfy
the respective predicates at exactly the same positions. -/
lemma countP_pointwise {α β : Type} :
    ∀ (l1 : List α) (l2 : List β) (p : α → Bool) (q : β → Bool),
      l1.length = l2.length →
      (∀ i (h1 : i < l1.length) (h2 : i < l2.length), p l1[i] = q l2[i]) →
      l1.countP p = l2.countP q := by
  intro l1
  induction l1 with
  | nil =>
    intro l2 p q hl _
    cases l2 with
    | nil => simp
    | cons b l2 => simp at hl
  | cons a l1 ih =>
    intro l2 p q hl hpt
    cases l2 with
    | nil => simp at hl
    | cons b l2 =>
      rw [List.countP_cons, List.countP_cons]
      have h0 := hpt 0 (by simp) (by simp)
      simp only [List.getElem_cons_zero] at h0
      have htail : l1.countP p = l2.countP q := by
        refine ih l2 p q (by simpa using hl) ?_
        intro i h1 h2
        have := hpt (i + 1) (by simpa using Nat.succ_lt_succ h1)
          (by simpa using Nat.succ_lt_succ h2)
        simpa using this
      rw [htail, h0]

lemma zip_self {α : Type} : ∀ l : List α, l.zip l = l.map (fun a => (a, a)) := by
  intro l
  induction l with
  | nil => simp
  | cons a l ih => simp [List.zip_cons_cons, ih]

/-- When every position is flagged green, `pass2` scores everything 3. -/
lemma pass2_green :
    ∀ (qs : List (Bool × Char)) (cnt : Char → ℕ),
      (∀ q ∈ qs, q.1 = true) → pass2 qs cnt = List.replicate qs.length 3 := by
  intro qs
  induction qs with
  | nil => intro cnt _; simp [pass2]
  | cons q rest ih =>
    intro cnt h
    have hq : q.1 = true := h q (List.mem_cons_self q rest)
    have hout : pass2 (q :: rest) cnt = 3 :: pass2 rest cnt := by
      simp only [pass2]; rw [if_pos hq]
    rw [hout, ih cnt (fun x hx => h x (List.mem_cons_of_mem q hx))]
    simp [List.replicate_succ]

lemma zip_getD {α β : Type} :
    ∀ (l1 : List α) (l2 : List β) (i : ℕ) (d1 : α) (d2 : β),
      i < l1.length → i < l2.length →
      (l1.zip l2).getD i (d1, d2) = (l1.getD i d1, l2.getD i d2) := by
  intro l1
  induction l1 with
  | nil => intro l2 i d1 d2 h1 h2; simp at h1
  | cons a l1 ih =>
    intro l2 i d1 d2 h1 h2
    cases l2 with
    | nil => simp at h2
    | cons b l2 =>
      cases i with
      | zero => simp [List.zip_cons_cons]
      | succ j =>
        simp only [List.zip_cons_cons, List.getD_cons_succ]
        exact ih l2 j d1 d2 (by simpa using h1) (by simpa using h2)

lemma map_getD {α β : Type} (f : α → β) :
    ∀ (l : List α) (i : ℕ) (dβ : β) (dα : α), i < l.length →
      (l.map f).getD i dβ = f (l.getD i dα) := by
  intro l
  induction l with
  | nil => intro i dβ dα hi; simp at hi
  | cons a l ih =>
    intro i dβ dα hi
    cases i with
    | zero => simp
    | succ j =>
      simp only [List.map_cons, List.getD_cons_succ]
      exact ih j dβ dα (by simpa using hi)

/-- C4: on five-letter lowercase words, `scoreWordle` returns five scores in
`{1,2,3}`; a position scores 3 exactly at exact matches; a non-green
position scores 2 exactly when, walking left to right, the guess letter
still has a solution occurrence not consumed by exact matches or earlier
yellows; per letter, positions scored 2 or 3 never exceed the letter's
count in the solution; and a word scored against itself is all green. -/
theorem wordle_scoreWordle_spec (g s : String)
    (hg : isFiveLetter g = true) (hs : isFiveLetter s = true) :
    (scoreWordle g s).length = 5
    ∧ (∀ v ∈ scoreWordle g s, v = 1 ∨ v = 2 ∨ v = 3)
    ∧ (∀ i, i < 5 →
        ((scoreWordle g s).getD i 0 = 3 ↔ g.data.getD i ' ' = s.data.getD i ' '))
    ∧ (∀ i, i < 5 → g.data.getD i ' ' ≠ s.data.getD i ' ' →
        ((scoreWordle g s).getD i 0 = 2 ↔
          yellowsBefore g.data (scoreWordle g s) i (g.data.getD i ' ')
            < availOcc g.data s.data (g.data.getD i ' ')))
    ∧ (∀ c : Char,
        (g.data.zip (scoreWordle g s)).countP
            (fun x => decide (x.1 = c ∧ (x.2 = 2 ∨ x.2 = 3)))
          ≤ s.data.count c)
    ∧ scoreWordle s s = [3, 3, 3, 3, 3] := by
  have hg5 : g.data.length = 5 := isFiveLetter_length g hg
  have hs5 : s.data.length = 5 := isFiveLetter_length s hs
  have hng : normalizeWord g = g := normalizeWord_of_isFiveLetter g hg
  have hns : normalizeWord s = s := normalizeWord_of_isFiveLetter s hs
  have hsc : scoreWordle g s
      = pass2 ((pass1 (g.data.zip s.data) (fun _ => 0)).1.zip g.data)
          (pass1 (g.data.zip s.data) (fun _ => 0)).2 := by
    have h0 : scoreWordle g s
        = pass2 ((pass1 ((normalizeWord g).data.zip (normalizeWord s).data)
              (fun _ => 0)).1.zip (normalizeWord g).data)
            (pass1 ((normalizeWord g).data.zip (normalizeWord s).data)
              (fun _ => 0)).2 := rfl
    rw [hng, hns] at h0
    exact h0
  have hps_len : (g.data.zip s.data).length = 5 := by
    rw [List.length_zip, hg5, hs5, Nat.min_self]
  have hflags_len : (pass1 (g.data.zip s.data) (fun _ => 0)).1.length = 5 := by
    rw [pass1_fst, List.length_map, hps_len]
  have hqs_len :
      ((pass1 (g.data.zip s.data) (fun _ => 0)).1.zip g.data).length = 5 := by
    rw [List.length_zip, hflags_len, hg5, Nat.min_self]
  have hout_len : (scoreWordle g s).length = 5 := by
    rw [hsc, pass2_length, hqs_len]
  have hmap_snd :
      ((pass1 (g.data.zip s.data) (fun _ => 0)).1.zip g.data).map Prod.snd
        = g.data :=
    List.map_snd_zip _ _ (by rw [hflags_len, hg5])
  have hcnt : ∀ c, (pass1 (g.data.zip s.data) (fun _ => 0)).2 c
      = availOcc g.data s.data c := by
    intro c
    simp [pass1_snd, availOcc]
  have hqs_getD : ∀ i, i < 5 →
      ((pass1 (g.data.zip s.data) (fun _ => 0)).1.zip g.data).getD i (true, ' ')
        = (decide (g.data.getD i ' ' = s.data.getD i ' '), g.data.getD i ' ') := by
    intro i hi
    rw [zip_getD _ _ i true ' ' (by rw [hflags_len]; exact hi)
        (by rw [hg5]; exact hi)]
    have hfl : (pass1 (g.data.zip s.data) (fun _ => 0)).1.getD i true
        = decide (g.data.getD i ' ' = s.data.getD i ' ') := by
      rw [pass1_fst,
        map_getD _ _ i true (' ', ' ') (by rw [hps_len]; exact hi),
        zip_getD _ _ i ' ' ' ' (by rw [hg5]; exact hi) (by rw [hs5]; exact hi)]
    rw [hfl]
  have hscore_getD : ∀ i, i < 5 →
      (scoreWordle g s).getD i 0 =
        if g.data.getD i ' ' = s.data.getD i ' ' then 3
        else if yellowsBefore g.data (scoreWordle g s) i (g.data.getD i ' ')
              < availOcc g.data s.data (g.data.getD i ' ') then 2
        else 1 := by
    intro i hi
    have h1 := pass2_getD ((pass1 (g.data.zip s.data) (fun _ => 0)).1.zip g.data)
      (pass1 (g.data.zip s.data) (fun _ => 0)).2 i (by rw [hqs_len]; exact hi)
    rw [hmap_snd, hqs_getD i hi] at h1
    dsimp only at h1
    rw [hcnt (g.data.getD i ' '), ← hsc] at h1
    simpa only [decide_eq_true_eq] using h1
  refine ⟨hout_len, ?_, ?_, ?_, ?_, ?_⟩
  · intro v hv
    rw [hsc] at hv
    exact pass2_values _ _ v hv
  · intro i hi
    rw [hscore_getD i hi]
    by_cases heq : g.data.getD i ' ' = s.data.getD i ' '
    · rw [if_pos heq]
      exact ⟨fun _ => heq, fun _ => rfl⟩
    · rw [if_neg heq]
      split_ifs with hyb
      · exact ⟨fun h => by omega, fun h => absurd h heq⟩
      · exact ⟨fun h => by omega, fun h => absurd h heq⟩
  · intro i hi hne
    rw [hscore_getD i hi, if_neg hne]
    split_ifs with hyb
    · exact ⟨fun _ => hyb, fun _ => rfl⟩
    · exact ⟨fun h => by omega, fun h => absurd h hyb⟩
  · intro c
    have hyel : (g.data.zip (scoreWordle g s)).countP
        (fun x => decide (x.1 = c ∧ x.2 = 2)) ≤ availOcc g.data s.data c := by
      have h := pass2_yellow_le
        ((pass1 (g.data.zip s.data) (fun _ => 0)).1.zip g.data)
        (pass1 (g.data.zip s.data) (fun _ => 0)).2 c
      rw [hmap_snd, hcnt c, ← hsc] at h
      exact h
    have hgreen_eq : (g.data.zip (scoreWordle g s)).countP
          (fun x => decide (x.1 = c ∧ x.2 = 3))
        = (g.data.zip s.data).countP
            (fun p => decide (p.2 = c ∧ p.1 = p.2)) := by
      apply countP_pointwise
      · rw [List.length_zip, List.length_zip, hg5, hs5, hout_len]
      · intro i h1 h2
        have hi5 : i < 5 := by
          rw [List.length_zip, hg5, hout_len, Nat.min_self] at h1
          exact h1
        rw [List.getElem_zip, List.getElem_zip]
        have hb1 : i < g.data.length := by rw [hg5]; exact hi5
        have hb2 : i < s.data.length := by rw [hs5]; exact hi5
        have hb3 : i < (scoreWordle g s).length := by rw [hout_len]; exact hi5
        have hgG : g.data[i] = g.data.getD i ' ' :=
          (List.getD_eq_getElem _ _ hb1).symm
        have hsG : s.data[i] = s.data.getD i ' ' :=
          (List.getD_eq_getElem _ _ hb2).symm
        have hoG : (scoreWordle g s)[i] = (scoreWordle g s).getD i 0 :=
          (List.getD_eq_getElem _ _ hb3).symm
        rw [hgG, hsG, hoG]
        by_cases hgs : g.data.getD i ' ' = s.data.getD i ' '
        · have ho3 : (scoreWordle g s).getD i 0 = 3 := by
            rw [hscore_getD i hi5, if_pos hgs]
          simp only [ho3, hgs]
        · have ho : (scoreWordle g s).getD i 0 ≠ 3 := by
            rw [hscore_getD i hi5, if_neg hgs]
            split_ifs <;> omega
          simp only [eq_false ho, eq_false hgs, and_false]
    have hcount : s.data.count c
        = (g.data.zip s.data).countP (fun p => decide (p.2 = c)) := by
      rw [List.count_eq_countP]
      apply countP_pointwise
      · rw [List.length_zip, hg5, hs5, Nat.min_self]
      · intro i h1 h2
        rw [List.getElem_zip]
        by_cases h : s.data[i] = c <;> simp [h]
    have hsplit := countP_split (g.data.zip (scoreWordle g s))
      (fun x => decide (x.1 = c ∧ (x.2 = 2 ∨ x.2 = 3)))
      (fun x => decide (x.2 = 2))
    have h2a : (g.data.zip (scoreWordle g s)).countP
          (fun x => decide (x.1 = c ∧ (x.2 = 2 ∨ x.2 = 3)) && decide (x.2 = 2))
        = (g.data.zip (scoreWordle g s)).countP
            (fun x => decide (x.1 = c ∧ x.2 = 2)) := by
      apply List.countP_congr
      intro x _
      simp only [Bool.and_eq_true, decide_eq_true_eq]
      constructor
      · rintro ⟨⟨h1, _⟩, h3⟩; exact ⟨h1, h3⟩
      · rintro ⟨h1, h2⟩; exact ⟨⟨h1, Or.inl h2⟩, h2⟩
    have h2b : (g.data.zip (scoreWordle g s)).countP
          (fun x => decide (x.1 = c ∧ (x.2 = 2 ∨ x.2 = 3)) && !decide (x.2 = 2))
        = (g.data.zip (scoreWordle g s)).countP
            (fun x => decide (x.1 = c ∧ x.2 = 3)) := by
      apply List.countP_congr
      intro x _
      simp only [Bool.and_eq_true, Bool.not_eq_true', decide_eq_false_iff_not,
        decide_eq_true_eq]
      constructor
      · rintro ⟨⟨h1, h2⟩, h3⟩
        rcases h2 with h2 | h2
        · exact absurd h2 h3
        · exact ⟨h1, h2⟩
      · rintro ⟨h1, h3⟩
        refine ⟨⟨h1, Or.inr h3⟩, ?_⟩
        rw [h3]
        omega
    have hsplit2 := countP_split (g.data.zip s.data)
      (fun p => decide (p.2 = c)) (fun p => decide (p.1 = p.2))
    have h3a : (g.data.zip s.data).countP
          (fun p => decide (p.2 = c) && decide (p.1 = p.2))
        = (g.data.zip s.data).countP
            (fun p => decide (p.2 = c ∧ p.1 = p.2)) := by
      apply List.countP_congr
      intro x _
      simp [Bool.and_eq_true, decide_eq_true_eq]
    have h3b : (g.data.zip s.data).countP
          (fun p => decide (p.2 = c) && !decide (p.1 = p.2))
        = availOcc g.data s.data c := rfl
    omega
  · have hscss : scoreWordle s s
        = pass2 ((pass1 (s.data.zip s.data) (fun _ => 0)).1.zip s.data)
            (pass1 (s.data.zip s.data) (fun _ => 0)).2 := by
      have h0 : scoreWordle s s
          = pass2 ((pass1 ((normalizeWord s).data.zip (normalizeWord s).data)
                (fun _ => 0)).1.zip (normalizeWord s).data)
              (pass1 ((normalizeWord s).data.zip (normalizeWord s).data)
                (fun _ => 0)).2 := rfl
      rw [hns] at h0
      exact h0
    have hall : ∀ q ∈ (pass1 (s.data.zip s.data) (fun _ => 0)).1.zip s.data,
        q.1 = true := by
      intro q hq
      have h1 : q.1 ∈ (pass1 (s.data.zip s.data) (fun _ => 0)).1 := by
        obtain ⟨b, ch⟩ := q
        exact (List.of_mem_zip hq).1
      rw [pass1_fst, zip_self, List.map_map] at h1
      rcases List.mem_map.mp h1 with ⟨a, _, ha⟩
      simp at ha
      exact ha
    rw [hscss, pass2_green _ _ hall]
    have hlen : ((pass1 (s.data.zip s.data) (fun _ => 0)).1.zip s.data).length
        = 5 := by
      rw [List.length_zip, pass1_fst, List.length_map, List.length_zip,
        hs5, Nat.min_self, Nat.min_self]
    rw [hlen]
    rfl

/-- Witness for `wordle_scoreWordle_spec` on the duplicate-letter pair
`guess = "abbey"`, `solution = "babes"`. -/
theorem wordle_scoreWordle_spec_witness :
    (isFiveLetter "abbey" = true ∧ isFiveLetter "babes" = true)
    ∧ ((scoreWordle "abbey" "babes").length = 5
      ∧ (∀ v ∈ scoreWordle "abbey" "babes", v = 1 ∨ v = 2 ∨ v = 3)
      ∧ (∀ i, i < 5 →
          ((scoreWordle "abbey" "babes").getD i 0 = 3 ↔
            "abbey".data.getD i ' ' = "babes".data.getD i ' '))
      ∧ (∀ i, i < 5 → "abbey".data.getD i ' ' ≠ "babes".data.getD i ' ' →
          ((scoreWordle "abbey" "babes").getD i 0 = 2 ↔
            yellowsBefore "abbey".data (scoreWordle "abbey" "babes") i
                ("abbey".data.getD i ' ')
              < availOcc "abbey".data "babes".data ("abbey".data.getD i ' ')))
      ∧ (∀ c : Char,
          ("abbey".data.zip (scoreWordle "abbey" "babes")).countP
              (fun x => decide (x.1 = c ∧ (x.2 = 2 ∨ x.2 = 3)))
            ≤ "babes".data.count c)
      ∧ scoreWordle "babes" "babes" = [3, 3, 3, 3, 3]) :=
  ⟨⟨by decide, by decide⟩,
   wordle_scoreWordle_spec "abbey" "babes" (by decide) (by decide)⟩

/-! ### The Compute pass -/

/-- Embedding of `patterns` (WordlePattern.tsx line 418):
`grid.map(r => (r.every(v => v === 0) ? null : r))`. -/
def patterns (grid : List (List ℕ)) : List (Option (List ℕ)) :=
  grid.map (fun r => if r.all (fun v => v == 0) then none else some r)

/-- Embedding of `anyRowFilled` (line 419). -/
def anyRowFilled (pats : List (Option (List ℕ))) : Bool :=
  pats.any (fun p => p.isSome)

/-- Embedding of `canCompute` (line 421):
`solutionValid && words.length > 0 && anyRowFilled`. -/
def canCompute (solution : String) (words : List String)
    (pats : List (Option (List ℕ))) : Bool :=
  isFiveLetter solution && decide (0 < words.length) && anyRowFilled pats

/-- Embedding of `s.every((score, i) => score === pat[i])` (line 464); the
out-of-range default 9 models the JavaScript `undefined`, equal to no
score. -/
def everyMatches (sc pat : List ℕ) : Bool :=
  (List.range sc.length).all (fun i => sc.getD i 0 == pat.getD i 9)

/-- Embedding of `candidates` (lines 460-466): blank rows get `[]`, painted
rows filter the word list by the scoring test. -/
def candidatesOf (words : List String) (S : String)
    (pats : List (Option (List ℕ))) : List (List String) :=
  pats.map (fun pat =>
    match pat with
    | none => []
    | some p => words.filter (fun w => everyMatches (scoreWordle w S) p))

/-- Embedding of `imps` (lines 468-471): the reduce over `candidates` with
index that pushes every index of a painted row with no candidates. -/
def impsOf (pats : List (Option (List ℕ))) (cands : List (List String)) :
    List ℕ :=
  (List.range cands.length).foldl
    (fun acc i =>
      if ((pats.getD i none).isSome && (cands.getD i []).isEmpty) = true
      then acc ++ [i] else acc) []

/-- Embedding of `picks` (line 473): `candidates.map(a => a.length ? a[0] : "")`. -/
def picksOf (cands : List (List String)) : List String :=
  cands.map (fun a => a.headD "")

/-- Embedding of `compute` (lines 452-480): `none` models the early return
when `canCompute` fails; otherwise the values passed to `setResults` and
`setImpossibleRows`. -/
def compute (solution : String) (words : List String) (grid : List (List ℕ)) :
    Option (List (List String) × List String × List ℕ) :=
  if canCompute solution words (patterns grid) then
    let S := normalizeWord solution
    let cands := candidatesOf words S (patterns grid)
    some (cands, picksOf cands, impsOf (patterns grid) cands)
  else none

lemma scoreWordle_length (w S : String) (hw : isFiveLetter w = true)
    (hS : isFiveLetter S = true) : (scoreWordle w S).length = 5 := by
  have hw5 : w.data.length = 5 := isFiveLetter_length w hw
  have hS5 : S.data.length = 5 := isFiveLetter_length S hS
  have h0 : scoreWordle w S
      = pass2 ((pass1 ((normalizeWord w).data.zip (normalizeWord S).data)
            (fun _ => 0)).1.zip (normalizeWord w).data)
          (pass1 ((normalizeWord w).data.zip (normalizeWord S).data)
            (fun _ => 0)).2 := rfl
  rw [normalizeWord_of_isFiveLetter w hw, normalizeWord_of_isFiveLetter S hS]
    at h0
  rw [h0, pass2_length, List.length_zip, pass1_fst, List.length_map,
    List.length_zip, hw5, hS5, Nat.min_self, Nat.min_self]

lemma foldl_push (p : ℕ → Bool) :
    ∀ (l : List ℕ) (init : List ℕ),
      l.foldl (fun acc i => if p i = true then acc ++ [i] else acc) init
        = init ++ l.filter p := by
  intro l
  induction l with
  | nil => intro init; simp
  | cons a l ih =>
    intro init
    simp only [List.foldl_cons, List.filter_cons]
    by_cases h : p a = true
    · rw [if_pos h, if_pos h, ih]
      simp
    · rw [if_neg h, if_neg h, ih]

lemma everyMatches_iff (sc pat : List ℕ) (h : sc.length = pat.length) :
    everyMatches sc pat = true ↔ sc = pat := by
  unfold everyMatches
  rw [List.all_eq_true]
  constructor
  · intro hall
    refine List.ext_getElem h ?_
    intro i h1 h2
    have hx := hall i (List.mem_range.mpr h1)
    rw [List.getD_eq_getElem sc 0 h1, List.getD_eq_getElem pat 9 h2] at hx
    exact eq_of_beq hx
  · intro heq
    subst heq
    intro i hi
    have hi5 := List.mem_range.mp hi
    rw [List.getD_eq_getElem sc 0 hi5, List.getD_eq_getElem sc 9 hi5]
    exact beq_self_eq_true _

/-- C5: when Compute runs with a valid solution, a non-empty loaded word
list and at least one painted row, `candidates[i]` is exactly the words
(in list order) whose score against the solution equals row `i`'s pattern,
blank rows get no candidates, `impossibleRows` is exactly the painted rows
with zero candidates, and `picks[i]` is the first candidate or `""`. -/
theorem wordle_compute_spec (solution : String) (words : List String)
    (grid : List (List ℕ))
    (hsol : isFiveLetter solution = true)
    (hwords : ∀ w ∈ words, isFiveLetter w = true)
    (hwne : words ≠ [])
    (hrow : anyRowFilled (patterns grid) = true)
    (hgrid : wfGrid grid) :
    ∃ cands picks imps,
      compute solution words grid = some (cands, picks, imps)
      ∧ cands.length = 6
      ∧ (∀ i, i < 6 →
          (grid.getD i []).all (fun v => v == 0) = true → cands.getD i [] = [])
      ∧ (∀ i, i < 6 → (grid.getD i []).all (fun v => v == 0) = false →
          (∀ w, w ∈ cands.getD i [] ↔
            w ∈ words ∧ scoreWordle w solution = grid.getD i [])
          ∧ List.Sublist (cands.getD i []) words)
      ∧ imps = (List.range 6).filter
          (fun i => ((patterns grid).getD i none).isSome
            && (cands.getD i []).isEmpty)
      ∧ (∀ i, i ∈ imps ↔
          i < 6 ∧ (patterns grid).getD i none ≠ none ∧ cands.getD i [] = [])
      ∧ (∀ i, i < 6 → picks.getD i "" = (cands.getD i []).headD "") := by
  obtain ⟨hglen, hrows⟩ := hgrid
  have hnsol : normalizeWord solution = solution :=
    normalizeWord_of_isFiveLetter solution hsol
  have hcan : canCompute solution words (patterns grid) = true := by
    unfold canCompute
    rw [hsol, hrow, decide_eq_true (List.length_pos.mpr hwne)]
    rfl
  have hcomp : compute solution words grid
      = some (candidatesOf words solution (patterns grid),
          picksOf (candidatesOf words solution (patterns grid)),
          impsOf (patterns grid) (candidatesOf words solution (patterns grid))) := by
    unfold compute
    rw [if_pos hcan, hnsol]
  have hpats_len : (patterns grid).length = 6 := by
    unfold patterns
    rw [List.length_map, hglen]
  have hcands_len :
      (candidatesOf words solution (patterns grid)).length = 6 := by
    unfold candidatesOf
    rw [List.length_map, hpats_len]
  have hrowmem : ∀ i, i < 6 → grid.getD i [] ∈ grid := by
    intro i hi
    rw [List.getD_eq_getElem grid [] (by rw [hglen]; exact hi)]
    exact List.getElem_mem _
  have hpat_getD : ∀ i, i < 6 → (patterns grid).getD i none
      = if (grid.getD i []).all (fun v => v == 0) then none
        else some (grid.getD i []) := by
    intro i hi
    unfold patterns
    rw [map_getD _ _ i none [] (by rw [hglen]; exact hi)]
  have hcand_getD : ∀ i, i < 6 →
      (candidatesOf words solution (patterns grid)).getD i []
        = match (patterns grid).getD i none with
          | none => []
          | some p => words.filter
              (fun w => everyMatches (scoreWordle w solution) p) := by
    intro i hi
    unfold candidatesOf
    rw [map_getD _ _ i [] none (by rw [hpats_len]; exact hi)]
  refine ⟨candidatesOf words solution (patterns grid),
    picksOf (candidatesOf words solution (patterns grid)),
    impsOf (patterns grid) (candidatesOf words solution (patterns grid)),
    hcomp, hcands_len, ?_, ?_, ?_, ?_, ?_⟩
  · intro i hi hblank
    rw [hcand_getD i hi, hpat_getD i hi, if_pos hblank]
  · intro i hi hpainted
    have hpat : (patterns grid).getD i none = some (grid.getD i []) := by
      rw [hpat_getD i hi, if_neg (by rw [hpainted]; exact Bool.false_ne_true)]
    have hrow5 : (grid.getD i []).length = 5 := (hrows _ (hrowmem i hi)).1
    constructor
    · intro w
      rw [hcand_getD i hi, hpat]
      show w ∈ words.filter
          (fun w => everyMatches (scoreWordle w solution) (grid.getD i [])) ↔ _
      rw [List.mem_filter]
      constructor
      · rintro ⟨hw, hm⟩
        refine ⟨hw, ?_⟩
        exact (everyMatches_iff _ _
          (by rw [scoreWordle_length w solution (hwords w hw) hsol, hrow5])).mp hm
      · rintro ⟨hw, hm⟩
        exact ⟨hw, (everyMatches_iff _ _
          (by rw [scoreWordle_length w solution (hwords w hw) hsol, hrow5])).mpr hm⟩
    · rw [hcand_getD i hi, hpat]
      exact List.filter_sublist _
  · unfold impsOf
    rw [foldl_push, List.nil_append, hcands_len]
  · intro i
    unfold impsOf
    rw [foldl_push, List.nil_append, hcands_len, List.mem_filter,
      List.mem_range]
    simp [Option.isSome_iff_ne_none, List.isEmpty_iff, and_assoc]
  · intro i hi
    unfold picksOf
    rw [map_getD _ _ i "" [] (by rw [hcands_len]; exact hi)]

/-- Witness for `wordle_compute_spec`: the demo pattern with solution
`"cigar"` and a two-word list. -/
theorem wordle_compute_spec_witness :
    (isFiveLetter "cigar" = true
      ∧ (∀ w ∈ ["cigar", "rebut"], isFiveLetter w = true)
      ∧ ["cigar", "rebut"] ≠ ([] : List String)
      ∧ anyRowFilled (patterns demoGrid) = true
      ∧ wfGrid demoGrid)
    ∧ (∃ cands picks imps,
        compute "cigar" ["cigar", "rebut"] demoGrid = some (cands, picks, imps)
        ∧ cands.length = 6
        ∧ (∀ i, i < 6 →
            (demoGrid.getD i []).all (fun v => v == 0) = true →
              cands.getD i [] = [])
        ∧ (∀ i, i < 6 → (demoGrid.getD i []).all (fun v => v == 0) = false →
            (∀ w, w ∈ cands.getD i [] ↔
              w ∈ ["cigar", "rebut"] ∧ scoreWordle w "cigar" = demoGrid.getD i [])
            ∧ List.Sublist (cands.getD i []) ["cigar", "rebut"])
        ∧ imps = (List.range 6).filter
            (fun i => ((patterns demoGrid).getD i none).isSome
              && (cands.getD i []).isEmpty)
        ∧ (∀ i, i ∈ imps ↔
            i < 6 ∧ (patterns demoGrid).getD i none ≠ none
              ∧ cands.getD i [] = [])
        ∧ (∀ i, i < 6 → picks.getD i "" = (cands.getD i []).headD "")) :=
  ⟨⟨by decide, by decide, by decide, by decide, by decide⟩,
   wordle_compute_spec "cigar" ["cigar", "rebut"] demoGrid
     (by decide) (by decide) (by decide) (by decide) (by decide)⟩

end Wordle
